import Mathlib

/-!
Shallow embedding of the core of `src/conway.rs` (Conway's Game of Life,
crate `vitae`): grid engine (boards, neighbor counting, generation
advance with double buffering) and mode controller (mode state machine,
input latching, the `interact` tick handler).

Conventions of the embedding:
* `Vec<Vec<Cell>>` becomes `List (List Cell)`; `usize` indices become `Nat`.
* The Rust casts `(x as isize + dx) as usize` are modelled exactly:
  integer arithmetic followed by reduction modulo `2^64` (`usizeOfInt`),
  so a negative offset wraps to a huge value that fails the
  `out_of_bounds` test, as the source's NOTE comment relies on.
* Cursor pixel coordinates (`f32` in the source) are modelled as `ℚ`;
  the cast `as usize` on a nonnegative float truncates toward zero,
  i.e. takes the floor, and saturates below zero at 0, which is
  `Int.toNat ∘ Int.floor` here.  Every concrete coordinate used in a
  theorem below is exactly representable in `f32` and its division by
  10 is exact, so `ℚ` and `f32` agree on it.
* A Rust indexing `board[y][x]` that can panic (only the write in
  `interact`) is modelled as an `Option`-returning write (`setCell?`),
  `none` standing for the panic; reads that are guarded by a bounds
  check in the source (`count_neighbors`) use total `getD` access.
* `update_board_state` writes every cell of `new_board` (same
  dimensions as `current_board` in every reachable state), swaps the
  two boards and zeroes the new scratch board; the write pass is
  embedded as the index-aware map `nextBoard` of the `current` snapshot
  (each cell is written exactly once by the loop, from `current` only),
  the swap and the clearing as the corresponding record update.
-/

namespace Vitae

/-- `WINDOW_SIZE_X` from the source. -/
def WINDOW_SIZE_X : Nat := 1024

/-- `WINDOW_SIZE_Y = WINDOW_SIZE_X` from the source. -/
def WINDOW_SIZE_Y : Nat := WINDOW_SIZE_X

/-- `CELL_SIZE` from the source. -/
def CELL_SIZE : Nat := 10

/-- `CELL_COUNT_X = WINDOW_SIZE_X / CELL_SIZE` from the source. -/
def CELL_COUNT_X : Nat := WINDOW_SIZE_X / CELL_SIZE

/-- `CELL_COUNT_Y = WINDOW_SIZE_Y / CELL_SIZE` from the source. -/
def CELL_COUNT_Y : Nat := WINDOW_SIZE_Y / CELL_SIZE

/-- `enum Cell { Dead, Alive }`. -/
inductive Cell
  | Dead
  | Alive
  deriving DecidableEq, Repr

/-- `type Board = Vec<Vec<Cell>>`. -/
abbrev Board := List (List Cell)

/-- The 8 neighbor offsets, `KERNEL` from the source, in source order. -/
def KERNEL : List (Int × Int) :=
  [(-1, -1), (0, -1), (1, -1), (-1, 0), (1, 0), (-1, 1), (0, 1), (1, 1)]

/-- `enum InputAction { PlaceAlive, PlaceDead, Pause, None }`. -/
inductive InputAction
  | PlaceAlive
  | PlaceDead
  | Pause
  | None
  deriving DecidableEq, Repr

/-- `enum EditorMode { Drawing, Moving }`. -/
inductive EditorMode
  | Drawing
  | Moving
  deriving DecidableEq, Repr

/-- `enum Mode { Simulation, Editor(EditorMode) }`. -/
inductive Mode
  | Simulation
  | Editor (m : EditorMode)
  deriving DecidableEq, Repr

/-- A cursor point in pixel space (`coffee::graphics::Point`, `f32`
coordinates modelled as `ℚ`). -/
structure Point where
  x : ℚ
  y : ℚ
  deriving DecidableEq, Repr

/-- `struct CustomInput { mode, mouse_points, action }`. -/
structure CustomInput where
  mode : Mode
  mouse_points : List Point
  action : InputAction
  deriving DecidableEq, Repr

/-- `struct Conway { current_board, new_board, mode }`. -/
structure Conway where
  current_board : Board
  new_board : Board
  mode : Mode
  deriving DecidableEq, Repr

/-- The abstract input events the source reacts to in
`CustomInput::update`: cursor movement, a left or right mouse-button
press, the P key press, and anything else (ignored by the source's
catch-all match arms). -/
inductive Event
  | CursorMoved (x y : ℚ)
  | LeftPressed
  | RightPressed
  | PauseKeyPressed
  | Other
  deriving DecidableEq, Repr

/-- `<CustomInput as Input>::new()`. -/
def CustomInput.new : CustomInput :=
  { mouse_points := []
    action := InputAction.None
    mode := Mode.Editor EditorMode.Drawing }

/-- `<CustomInput as Input>::update`, one event at a time.  `Vec::push`
appends at the end of the queue. -/
def CustomInput.update (i : CustomInput) (e : Event) : CustomInput :=
  match e with
  | Event.CursorMoved x y =>
      if i.mode = Mode.Simulation then i
      else { i with mouse_points := i.mouse_points ++ [⟨x, y⟩] }
  | Event.LeftPressed =>
      { i with action :=
          match i.action with
          | InputAction.PlaceAlive => InputAction.None
          | _ => InputAction.PlaceAlive }
  | Event.RightPressed =>
      { i with action :=
          match i.action with
          | InputAction.PlaceDead => InputAction.None
          | _ => InputAction.PlaceDead }
  | Event.PauseKeyPressed => { i with action := InputAction.Pause }
  | Event.Other => i

/-- `Conway::new()`. -/
def Conway.new : Conway :=
  { current_board :=
      List.replicate CELL_COUNT_Y (List.replicate CELL_COUNT_X Cell.Dead)
    new_board :=
      List.replicate CELL_COUNT_Y (List.replicate CELL_COUNT_X Cell.Dead)
    mode := Mode.Editor EditorMode.Drawing }

/-- Total read of a board cell, `board[y][x]` where the source only
reads after an explicit bounds check (the default is never exposed on
an in-bounds index). -/
def getCell (b : Board) (y x : Nat) : Cell :=
  (b.getD y []).getD x Cell.Dead

/-- The Rust cast `i as usize` of an `isize` value: reduction modulo
`2^64` (64-bit target, as the source's NOTE comment assumes). -/
def usizeOfInt (i : Int) : Nat := (i % (2 ^ 64 : Int)).toNat

/-- `Conway::out_of_bounds`. -/
def out_of_bounds (x y : Nat) : Bool :=
  CELL_COUNT_X ≤ x || CELL_COUNT_Y ≤ y

/-- Loop body of `Conway::count_neighbors` for one kernel offset `d`:
cast the shifted coordinates to `usize`, skip if out of bounds,
increment on an Alive cell of the current board. -/
def neighborAcc (b : Board) (x y : Nat) (n : Nat) (d : Int × Int) : Nat :=
  let x' := usizeOfInt ((x : Int) + d.1)
  let y' := usizeOfInt ((y : Int) + d.2)
  if out_of_bounds x' y' then n
  else if getCell b y' x' = Cell.Alive then n + 1 else n

/-- `Conway::count_neighbors`: fold of the loop body over `KERNEL` in
source order, starting from `n = 0`. -/
def count_neighbors (b : Board) (x y : Nat) : Nat :=
  KERNEL.foldl (neighborAcc b x y) 0

/-- The match on `(cell, n)` inside `update_board_state`, guard order
as in the source. -/
def lifeRule (c : Cell) (n : Nat) : Cell :=
  match c with
  | Cell.Alive =>
      if n < 2 then Cell.Dead
      else if n = 2 ∨ n = 3 then Cell.Alive
      else if n > 3 then Cell.Dead
      else Cell.Dead
  | Cell.Dead => if n = 3 then Cell.Alive else Cell.Dead

/-- Inner loop of `update_board_state`: the writes into row `y` of
`new_board`, cell by cell from column index `x0` on, each computed from
the `current` snapshot `b` only. -/
def nextRowFrom (b : Board) (y : Nat) : Nat → List Cell → List Cell
  | _, [] => []
  | x0, c :: rest =>
      lifeRule c (count_neighbors b x0 y) :: nextRowFrom b y (x0 + 1) rest

/-- Outer loop of `update_board_state`: rows from index `y0` on. -/
def nextRowsFrom (b : Board) : Nat → List (List Cell) → Board
  | _, [] => []
  | y0, row :: rest => nextRowFrom b y0 0 row :: nextRowsFrom b (y0 + 1) rest

/-- The fully written `new_board` after the double loop of
`update_board_state`, as a function of the `current` snapshot. -/
def nextBoard (b : Board) : Board := nextRowsFrom b 0 b

/-- `Conway::clear_new_board`: every row is overwritten with
`CELL_COUNT_X` zero bytes, i.e. `CELL_COUNT_X` `Dead` cells (row
lengths are `CELL_COUNT_X` in every reachable state). -/
def clear_new_board (b : Board) : Board :=
  b.map (fun _ => List.replicate CELL_COUNT_X Cell.Dead)

/-- `Conway::update_board_state`: write pass into `new_board`, swap of
the two boards, then clearing of the new scratch board. -/
def update_board_state (c : Conway) : Conway :=
  { current_board := nextBoard c.current_board
    new_board := clear_new_board c.current_board
    mode := c.mode }

/-- `Conway::toggle_mode` on the mode value. -/
def toggle_mode (m : Mode) : Mode :=
  match m with
  | Mode.Editor _ => Mode.Simulation
  | Mode.Simulation => Mode.Editor EditorMode.Drawing

/-- `Conway::toggle_mode` on the whole state. -/
def Conway.toggle (c : Conway) : Conway := { c with mode := toggle_mode c.mode }

/-- `<Conway as Game>::update`: advance a generation only in
Simulation mode. -/
def Conway.tick (c : Conway) : Conway :=
  match c.mode with
  | Mode.Editor _ => c
  | Mode.Simulation => update_board_state c

/-- Pixel coordinate to cell coordinate: `(p / CELL_SIZE as f32) as
usize` — truncation toward zero, saturating at 0 from below. -/
def toCellCoord (q : ℚ) : Nat := (⌊q / (CELL_SIZE : ℚ)⌋).toNat

/-- The write `board[y][x] = v` of `interact`: `none` models the
out-of-bounds panic of the unchecked Rust indexing. -/
def setCell? (b : Board) (y x : Nat) (v : Cell) : Option Board :=
  if y < b.length then
    let row := b.getD y []
    if x < row.length then some (b.set y (row.set x v)) else none
  else none

/-- One iteration of the `while let Some(p) = input.mouse_points.pop()`
body of `interact`. -/
def applyPoint (c : Conway) (a : InputAction) (p : Point) : Option Conway :=
  let x := toCellCoord p.x
  let y := toCellCoord p.y
  match a with
  | InputAction.PlaceAlive =>
      (setCell? c.current_board y x Cell.Alive).map
        (fun b => { c with current_board := b })
  | InputAction.PlaceDead =>
      (setCell? c.current_board y x Cell.Dead).map
        (fun b => { c with current_board := b })
  | InputAction.Pause => some c.toggle
  | InputAction.None => some c

/-- The drain loop of `interact` on an explicit worklist (`Vec::pop`
takes the last queued point first, so `interact` runs this on the
reversed queue). -/
def drainRev (a : InputAction) : Conway → List Point → Option Conway
  | c, [] => some c
  | c, p :: rest =>
      match applyPoint c a p with
      | some c' => drainRev a c' rest
      | none => none

/-- `<Conway as Game>::interact`: Pause handling (one-shot: the action
is reset to `None` and the input's mode mirror is updated), the
Simulation-mode early return, then the drain loop over the queue.
`none` models a panic of the unchecked cell write. -/
def interact (c : Conway) (i : CustomInput) : Option (Conway × CustomInput) :=
  let s :=
    if i.action = InputAction.Pause then
      let c' := c.toggle
      (c', { i with action := InputAction.None, mode := c'.mode })
    else (c, i)
  if s.1.mode = Mode.Simulation then some s
  else
    (drainRev s.2.action s.1 s.2.mouse_points.reverse).map
      (fun c' => (c', { s.2 with mouse_points := [] }))

/-- Iterated `interact` with no new input in between (`none` aborts). -/
def interactIter : Nat → Conway → CustomInput → Option (Conway × CustomInput)
  | 0, c, i => some (c, i)
  | n + 1, c, i =>
      match interact c i with
      | some s => interactIter n s.1 s.2
      | none => none

/-- Modelled from the spec (§4.1, §8): the spec's own formulation of
one neighbor position's contribution — the offset must land inside
`[0, W) × [0, H)` (signed comparison, never wrapped) and hold an Alive
cell of the current board.  To be compared with the source's
`count_neighbors`. -/
def specNeighborPred (b : Board) (x y : Nat) (d : Int × Int) : Bool :=
  decide (0 ≤ (x : Int) + d.1) &&
    decide ((x : Int) + d.1 < (CELL_COUNT_X : Int)) &&
    decide (0 ≤ (y : Int) + d.2) &&
    decide ((y : Int) + d.2 < (CELL_COUNT_Y : Int)) &&
    decide (getCell b ((y : Int) + d.2).toNat ((x : Int) + d.1).toNat = Cell.Alive)

/-- Modelled from the spec (§4.1, §8), second half: the count itself,
the length of the list of offsets passing `specNeighborPred`. -/
def specNeighborCount (b : Board) (x y : Nat) : Nat :=
  (KERNEL.filter (specNeighborPred b x y)).length

/-- The translated cell coordinate of a cursor point lies inside the
actual dimensions of board `b` (the in-bounds precondition of the
unchecked write in `interact`). -/
def ptInBounds (b : Board) (p : Point) : Prop :=
  toCellCoord p.y < b.length ∧
  toCellCoord p.x < (b.getD (toCellCoord p.y) []).length

/-- The modes reachable from the initial mode by `toggle_mode`. -/
inductive ReachableMode : Mode → Prop
  | init : ReachableMode (Mode.Editor EditorMode.Drawing)
  | toggle {m : Mode} : ReachableMode m → ReachableMode (toggle_mode m)

/-! ### Helper lemmas about the drain loop and `interact` -/

/-- `applyPoint` with a non-Pause action never changes the mode. -/
lemma applyPoint_mode {c c' : Conway} {a : InputAction} {p : Point}
    (ha : a ≠ InputAction.Pause) (h : applyPoint c a p = some c') :
    c'.mode = c.mode := by
  cases a with
  | Pause => exact absurd rfl ha
  | None =>
      simp [applyPoint] at h
      rw [← h]
  | PlaceAlive =>
      rcases Option.map_eq_some'.mp h with ⟨b, _, hb⟩
      rw [← hb]
  | PlaceDead =>
      rcases Option.map_eq_some'.mp h with ⟨b, _, hb⟩
      rw [← hb]

/-- The drain loop with a non-Pause action never changes the mode. -/
lemma drainRev_mode {a : InputAction} (ha : a ≠ InputAction.Pause) :
    ∀ (pts : List Point) (c c' : Conway),
      drainRev a c pts = some c' → c'.mode = c.mode := by
  intro pts
  induction pts with
  | nil =>
      intro c c' h
      simp [drainRev] at h
      rw [h]
  | cons p rest ih =>
      intro c c' h
      rw [drainRev] at h
      cases happ : applyPoint c a p with
      | none => rw [happ] at h; exact absurd h (by simp)
      | some c1 =>
          rw [happ] at h
          exact (ih c1 c' h).trans (applyPoint_mode ha happ)

/-- The drain loop with the `None` action is the identity on the
engine state. -/
lemma drainRev_none :
    ∀ (pts : List Point) (c : Conway),
      drainRev InputAction.None c pts = some c := by
  intro pts
  induction pts with
  | nil => intro c; rfl
  | cons p rest ih => intro c; exact ih c

/-- `interact` on an input whose action is `Pause`: the mode is toggled
once and the action comes back reset to `None`. -/
lemma interact_action_pause (c : Conway) (i : CustomInput)
    (h : i.action = InputAction.Pause) :
    ∃ i', interact c i = some (c.toggle, i') ∧
      i'.action = InputAction.None := by
  by_cases hm : (c.toggle).mode = Mode.Simulation
  · exact ⟨{ i with action := InputAction.None, mode := c.toggle.mode },
      by simp [interact, h, hm], rfl⟩
  · exact ⟨⟨c.toggle.mode, [], InputAction.None⟩,
      by simp [interact, h, hm, drainRev_none], rfl⟩

/-- `interact` on an input whose action is `None`: the engine state is
untouched and the action stays `None`. -/
lemma interact_action_none (c : Conway) (i : CustomInput)
    (h : i.action = InputAction.None) :
    ∃ i', interact c i = some (c, i') ∧
      i'.action = InputAction.None := by
  by_cases hm : c.mode = Mode.Simulation
  · exact ⟨i, by simp [interact, h, hm], h⟩
  · exact ⟨{ i with mouse_points := [] },
      by simp [interact, h, hm, drainRev_none], h⟩

/-- Iterated `interact` from a `None` action: the mode never moves and
the action stays `None`. -/
lemma interactIter_none :
    ∀ (n : Nat) (c : Conway) (i : CustomInput),
      i.action = InputAction.None →
      (interactIter n c i).map (fun s => (s.1.mode, s.2.action)) =
        some (c.mode, InputAction.None) := by
  intro n
  induction n with
  | zero =>
      intro c i h
      simp [interactIter, h]
  | succ n ih =>
      intro c i h
      obtain ⟨i', hi, hia⟩ := interact_action_none c i h
      rw [show interactIter (n + 1) c i =
        (match interact c i with
          | some s => interactIter n s.1 s.2
          | none => none) from rfl, hi]
      exact ih c i' hia

/-- Cell `x` of the written row `y` is the rule applied to the
snapshot cell and its neighbor count. -/
lemma nextRowFrom_getD (b : Board) (y : Nat) :
    ∀ (row : List Cell) (x0 x : Nat), x < row.length →
      (nextRowFrom b y x0 row).getD x Cell.Dead =
        lifeRule (row.getD x Cell.Dead) (count_neighbors b (x0 + x) y) := by
  intro row
  induction row with
  | nil => intro x0 x hx; simp at hx
  | cons c rest ih =>
      intro x0 x hx
      cases x with
      | zero => simp [nextRowFrom]
      | succ x =>
          rw [show nextRowFrom b y x0 (c :: rest) =
            lifeRule c (count_neighbors b x0 y) ::
              nextRowFrom b y (x0 + 1) rest from rfl]
          rw [List.getD_cons_succ, List.getD_cons_succ]
          rw [ih (x0 + 1) x (by simpa using hx)]
          rw [show x0 + (x + 1) = x0 + 1 + x from by omega]

/-- Row `y` of the written board is the written image of row `y` of
the snapshot. -/
lemma nextRowsFrom_getD (b : Board) :
    ∀ (rows : List (List Cell)) (y0 y : Nat), y < rows.length →
      (nextRowsFrom b y0 rows).getD y [] =
        nextRowFrom b (y0 + y) 0 (rows.getD y []) := by
  intro rows
  induction rows with
  | nil => intro y0 y hy; simp at hy
  | cons row rest ih =>
      intro y0 y hy
      cases y with
      | zero => simp [nextRowsFrom]
      | succ y =>
          rw [show nextRowsFrom b y0 (row :: rest) =
            nextRowFrom b y0 0 row ::
              nextRowsFrom b (y0 + 1) rest from rfl]
          rw [List.getD_cons_succ, List.getD_cons_succ]
          rw [ih (y0 + 1) y (by simpa using hy)]
          rw [show y0 + (y + 1) = y0 + 1 + y from by omega]

/-- The written board, cell by cell: the rule applied to the snapshot
cell and its neighbor count in the snapshot. -/
lemma getCell_nextBoard (b : Board) (x y : Nat)
    (hy : y < b.length) (hx : x < (b.getD y []).length) :
    getCell (nextBoard b) y x =
      lifeRule (getCell b y x) (count_neighbors b x y) := by
  unfold getCell nextBoard
  rw [nextRowsFrom_getD b b 0 y hy]
  rw [nextRowFrom_getD b (0 + y) (b.getD y []) 0 x hx]
  rw [Nat.zero_add, Nat.zero_add]

/-- The grid constants evaluate to 102. -/
lemma cell_count_x_eq : CELL_COUNT_X = 102 := rfl

/-- The grid constants evaluate to 102. -/
lemma cell_count_y_eq : CELL_COUNT_Y = 102 := rfl

/-- The `as usize` cast is the identity on values representable in 64
bits. -/
lemma usizeOfInt_eq_toNat {i : Int} (h0 : 0 ≤ i) (h : i < 2 ^ 64) :
    usizeOfInt i = i.toNat := by
  unfold usizeOfInt
  rw [Int.emod_eq_of_lt h0 h]

/-- The `as usize` cast wraps `-1` to `2^64 - 1`, as the source's NOTE
comment relies on. -/
lemma usizeOfInt_neg_one : usizeOfInt (-1) = 2 ^ 64 - 1 := by decide

/-- For a coordinate below 102 and a kernel offset, the source's
wrapped `usize` bound check agrees with the signed in-bounds check, and
on in-bounds offsets the cast is the plain value. -/
lemma usizeSkip {v : Nat} {d : Int} (hv : v < 102)
    (hd : -1 ≤ d ∧ d ≤ 1) :
    ((102 ≤ usizeOfInt ((v : Int) + d)) ↔
      ¬(0 ≤ (v : Int) + d ∧ (v : Int) + d < 102)) ∧
    (0 ≤ (v : Int) + d →
      usizeOfInt ((v : Int) + d) = ((v : Int) + d).toNat) := by
  have hlt : (v : Int) + d < 2 ^ 64 := by omega
  by_cases h0 : 0 ≤ (v : Int) + d
  · rw [usizeOfInt_eq_toNat h0 hlt]
    refine ⟨⟨?_, ?_⟩, fun _ => rfl⟩
    · intro hge hand
      omega
    · intro hn
      omega
  · have hneg : (v : Int) + d = -1 := by omega
    rw [hneg, usizeOfInt_neg_one]
    refine ⟨⟨?_, ?_⟩, ?_⟩
    · intro _ hand
      omega
    · intro _
      norm_num
    · intro h0'
      omega

/-- Unpacking a true spec predicate: both offset coordinates are in
bounds and the cell there is Alive. -/
lemma specNeighborPred_bounds {b : Board} {x y : Nat} {d : Int × Int}
    (h : specNeighborPred b x y d = true) :
    (0 ≤ (x : Int) + d.1 ∧ (x : Int) + d.1 < 102) ∧
    (0 ≤ (y : Int) + d.2 ∧ (y : Int) + d.2 < 102) ∧
    getCell b ((y : Int) + d.2).toNat ((x : Int) + d.1).toNat =
      Cell.Alive := by
  simp only [specNeighborPred, Bool.and_eq_true, decide_eq_true_eq] at h
  obtain ⟨⟨⟨⟨h1, h2⟩, h3⟩, h4⟩, h5⟩ := h
  rw [cell_count_x_eq] at h2
  rw [cell_count_y_eq] at h4
  exact ⟨⟨h1, by exact_mod_cast h2⟩, ⟨h3, by exact_mod_cast h4⟩, h5⟩

/-- Packing the spec predicate from its components. -/
lemma specNeighborPred_true {b : Board} {x y : Nat} {d : Int × Int}
    (hbx : 0 ≤ (x : Int) + d.1 ∧ (x : Int) + d.1 < 102)
    (hby : 0 ≤ (y : Int) + d.2 ∧ (y : Int) + d.2 < 102)
    (ha : getCell b ((y : Int) + d.2).toNat ((x : Int) + d.1).toNat =
      Cell.Alive) :
    specNeighborPred b x y d = true := by
  simp only [specNeighborPred, Bool.and_eq_true, decide_eq_true_eq]
  refine ⟨⟨⟨⟨hbx.1, ?_⟩, hby.1⟩, ?_⟩, ha⟩
  · rw [cell_count_x_eq]; exact_mod_cast hbx.2
  · rw [cell_count_y_eq]; exact_mod_cast hby.2

/-- One step of the `count_neighbors` loop contributes exactly the
spec predicate's indicator. -/
lemma neighborAcc_eq (b : Board) (x y : Nat)
    (hx : x < CELL_COUNT_X) (hy : y < CELL_COUNT_Y)
    (d : Int × Int) (hd1 : -1 ≤ d.1 ∧ d.1 ≤ 1) (hd2 : -1 ≤ d.2 ∧ d.2 ≤ 1)
    (n : Nat) :
    neighborAcc b x y n d =
      n + (if specNeighborPred b x y d then 1 else 0) := by
  obtain ⟨hxiff, hxeq⟩ := usizeSkip (cell_count_x_eq ▸ hx) hd1
  obtain ⟨hyiff, hyeq⟩ := usizeSkip (cell_count_y_eq ▸ hy) hd2
  by_cases hinx : 0 ≤ (x : Int) + d.1 ∧ (x : Int) + d.1 < 102
  · by_cases hiny : 0 ≤ (y : Int) + d.2 ∧ (y : Int) + d.2 < 102
    · have hux := hxeq hinx.1
      have huy := hyeq hiny.1
      simp only [neighborAcc, out_of_bounds, cell_count_x_eq,
        cell_count_y_eq, hux, huy]
      rw [if_neg (by simp; omega)]
      by_cases halive :
          getCell b ((y : Int) + d.2).toNat ((x : Int) + d.1).toNat =
            Cell.Alive
      · rw [if_pos halive,
          if_pos (specNeighborPred_true hinx hiny halive)]
      · rw [if_neg halive, if_neg (fun hp =>
          halive (specNeighborPred_bounds hp).2.2)]
        omega
    · have huy : 102 ≤ usizeOfInt ((y : Int) + d.2) := hyiff.mpr hiny
      simp only [neighborAcc, out_of_bounds]
      rw [if_pos (by simp [cell_count_y_eq]; exact Or.inr huy)]
      rw [if_neg (fun hp => hiny (specNeighborPred_bounds hp).2.1)]
      omega
  · have hux : 102 ≤ usizeOfInt ((x : Int) + d.1) := hxiff.mpr hinx
    simp only [neighborAcc, out_of_bounds]
    rw [if_pos (by simp [cell_count_x_eq]; exact Or.inl hux)]
    rw [if_neg (fun hp => hinx (specNeighborPred_bounds hp).1)]
    omega

/-- The whole `count_neighbors` fold equals the length of the
spec-filtered offset list, for any offset list within the kernel's
range. -/
lemma countFold_eq (b : Board) (x y : Nat)
    (hx : x < CELL_COUNT_X) (hy : y < CELL_COUNT_Y) :
    ∀ (l : List (Int × Int)),
      (∀ d ∈ l, (-1 ≤ d.1 ∧ d.1 ≤ 1) ∧ (-1 ≤ d.2 ∧ d.2 ≤ 1)) →
      ∀ n : Nat,
        l.foldl (neighborAcc b x y) n =
          n + (l.filter (specNeighborPred b x y)).length := by
  intro l
  induction l with
  | nil => intro _ n; simp
  | cons d rest ih =>
      intro hall n
      have hd := hall d (List.mem_cons_self d rest)
      rw [List.foldl_cons, List.filter_cons]
      rw [neighborAcc_eq b x y hx hy d hd.1 hd.2 n]
      rw [ih (fun e he => hall e (List.mem_cons_of_mem d he))]
      by_cases hp : specNeighborPred b x y d = true
      · rw [if_pos hp, if_pos hp, List.length_cons]
        omega
      · rw [if_neg hp, if_neg hp]
        omega

/-- The unchecked write succeeds exactly on in-bounds indices. -/
lemma setCell?_some {b : Board} {y x : Nat} (v : Cell)
    (hy : y < b.length) (hx : x < (b.getD y []).length) :
    setCell? b y x v = some (b.set y ((b.getD y []).set x v)) := by
  unfold setCell?
  rw [if_pos hy, if_pos hx]

/-- Reading a row of a board after replacing row `y`. -/
lemma getD_set_row (b : Board) {y : Nat} (r : List Cell)
    (hy : y < b.length) (k : Nat) :
    (b.set y r).getD k [] = if k = y then r else b.getD k [] := by
  by_cases hk : k = y
  · subst hk
    have h1 : (b.set k r)[k]? = some r := List.getElem?_set_self hy
    rw [List.getD_eq_getElem?_getD, h1, Option.getD_some, if_pos rfl]
  · have h1 : (b.set y r)[k]? = b[k]? :=
      List.getElem?_set_ne (fun h => hk h.symm)
    rw [List.getD_eq_getElem?_getD, h1, ← List.getD_eq_getElem?_getD,
      if_neg hk]

/-- Reading a cell of a row after writing index `x`. -/
lemma getD_set_cell (r : List Cell) {x : Nat} (v : Cell)
    (hx : x < r.length) (k : Nat) :
    (r.set x v).getD k Cell.Dead =
      if k = x then v else r.getD k Cell.Dead := by
  by_cases hk : k = x
  · subst hk
    have h1 : (r.set k v)[k]? = some v := List.getElem?_set_self hx
    rw [List.getD_eq_getElem?_getD, h1, Option.getD_some, if_pos rfl]
  · have h1 : (r.set x v)[k]? = r[k]? :=
      List.getElem?_set_ne (fun h => hk h.symm)
    rw [List.getD_eq_getElem?_getD, h1, ← List.getD_eq_getElem?_getD,
      if_neg hk]

/-- Reading any cell after an in-bounds cell write: the new value at
the written coordinate, the old value elsewhere. -/
lemma getCell_set (b : Board) {y x : Nat} (v : Cell)
    (hy : y < b.length) (hx : x < (b.getD y []).length) (y' x' : Nat) :
    getCell (b.set y ((b.getD y []).set x v)) y' x' =
      if y' = y ∧ x' = x then v else getCell b y' x' := by
  unfold getCell
  rw [getD_set_row b ((b.getD y []).set x v) hy y']
  by_cases hyy : y' = y
  · subst hyy
    rw [if_pos rfl, getD_set_cell (b.getD y' []) v hx x']
    by_cases hxx : x' = x
    · subst hxx
      rw [if_pos rfl, if_pos ⟨rfl, rfl⟩]
    · rw [if_neg hxx, if_neg (fun hand => hxx hand.2)]
  · rw [if_neg hyy, if_neg (fun hand => hyy hand.1)]

/-- An in-bounds cell write preserves every row length. -/
lemma length_getD_set (b : Board) {y x : Nat} (v : Cell)
    (hy : y < b.length) (k : Nat) :
    ((b.set y ((b.getD y []).set x v)).getD k []).length =
      (b.getD k []).length := by
  rw [getD_set_row b ((b.getD y []).set x v) hy k]
  by_cases hk : k = y
  · subst hk
    rw [if_pos rfl, List.length_set]
  · rw [if_neg hk]

/-- The drain loop under a placing action (`PlaceAlive` writing
`Alive`, `PlaceDead` writing `Dead`) on in-bounds points: it succeeds,
preserves the board dimensions, never overwrites a cell already
holding the placed state with anything else, and leaves every targeted
cell at the placed state. -/
lemma drainRev_place {a : InputAction} {v : Cell}
    (hav : (a = InputAction.PlaceAlive ∧ v = Cell.Alive) ∨
      (a = InputAction.PlaceDead ∧ v = Cell.Dead)) :
    ∀ (pts : List Point) (c : Conway),
      (∀ p ∈ pts, ptInBounds c.current_board p) →
      ∃ c', drainRev a c pts = some c' ∧
        c'.current_board.length = c.current_board.length ∧
        (∀ k, (c'.current_board.getD k []).length =
          (c.current_board.getD k []).length) ∧
        (∀ j k, getCell c.current_board j k = v →
          getCell c'.current_board j k = v) ∧
        (∀ p ∈ pts, getCell c'.current_board (toCellCoord p.y)
          (toCellCoord p.x) = v) := by
  intro pts
  induction pts with
  | nil =>
      intro c _
      exact ⟨c, rfl, rfl, fun _ => rfl, fun _ _ h => h, by simp⟩
  | cons p rest ih =>
      intro c hb
      obtain ⟨hy, hx⟩ := hb p (List.mem_cons_self p rest)
      have hset := setCell?_some v hy hx
      set b1 := c.current_board.set (toCellCoord p.y)
        ((c.current_board.getD (toCellCoord p.y) []).set
          (toCellCoord p.x) v) with hb1
      have happly : applyPoint c a p =
          (setCell? c.current_board (toCellCoord p.y) (toCellCoord p.x)
            v).map (fun b => { c with current_board := b }) := by
        rcases hav with ⟨ha, hv⟩ | ⟨ha, hv⟩ <;> subst ha <;> subst hv <;>
          rfl
      have hstep : drainRev a c (p :: rest) =
          drainRev a { c with current_board := b1 } rest := by
        rw [show drainRev a c (p :: rest) =
          (match applyPoint c a p with
            | some c1 => drainRev a c1 rest
            | none => none) from rfl]
        rw [happly, hset]
        rfl
      have hrest : ∀ q ∈ rest,
          ptInBounds ({ c with current_board := b1 } :
            Conway).current_board q := by
        intro q hq
        obtain ⟨h1, h2⟩ := hb q (List.mem_cons_of_mem p hq)
        refine ⟨?_, ?_⟩
        · rw [show ({ c with current_board := b1 } :
            Conway).current_board = b1 from rfl, hb1, List.length_set]
          exact h1
        · rw [show ({ c with current_board := b1 } :
            Conway).current_board = b1 from rfl, hb1,
            length_getD_set c.current_board v hy]
          exact h2
      obtain ⟨c', hd, hlen, hrow, hmono, hpts⟩ :=
        ih { c with current_board := b1 } hrest
      refine ⟨c', hstep.trans hd, ?_, ?_, ?_, ?_⟩
      · rw [hlen, show ({ c with current_board := b1 } :
          Conway).current_board = b1 from rfl, hb1, List.length_set]
      · intro k
        rw [hrow k, show ({ c with current_board := b1 } :
          Conway).current_board = b1 from rfl, hb1,
          length_getD_set c.current_board v hy]
      · intro j k hjk
        apply hmono
        rw [show ({ c with current_board := b1 } :
          Conway).current_board = b1 from rfl, hb1,
          getCell_set c.current_board v hy hx]
        by_cases hjy : j = toCellCoord p.y ∧ k = toCellCoord p.x
        · rw [if_pos hjy]
        · rw [if_neg hjy]
          exact hjk
      · intro q hq
        rcases List.mem_cons.mp hq with rfl | hq2
        · apply hmono
          rw [show ({ c with current_board := b1 } :
            Conway).current_board = b1 from rfl, hb1,
            getCell_set c.current_board v hy hx,
            if_pos ⟨rfl, rfl⟩]
        · exact hpts q hq2

/-- Pixel column 1020 (in-window) translates to cell column 102. -/
lemma toCellCoord_1020 : toCellCoord 1020 = 102 := by
  unfold toCellCoord CELL_SIZE
  norm_num
  rfl

/-- Pixel coordinate 5 translates to cell coordinate 0. -/
lemma toCellCoord_5 : toCellCoord 5 = 0 := by
  unfold toCellCoord CELL_SIZE
  norm_num

/-! ### Theorems -/

/-- C7: the mode state machine starts in `Editor(Drawing)`; `toggle_mode`
sends every `Editor` state (either sub-mode) to `Simulation` and
`Simulation` to `Editor(Drawing)`; hence no state reachable from the
initial state by toggles is ever `Editor(Moving)`. -/
theorem mode_machine_never_moving :
    Conway.new.mode = Mode.Editor EditorMode.Drawing ∧
    (∀ e : EditorMode, toggle_mode (Mode.Editor e) = Mode.Simulation) ∧
    toggle_mode Mode.Simulation = Mode.Editor EditorMode.Drawing ∧
    ∀ m : Mode, ReachableMode m → m ≠ Mode.Editor EditorMode.Moving := by
  refine ⟨rfl, fun e => rfl, rfl, ?_⟩
  intro m h
  induction h with
  | init => simp
  | toggle _ _ =>
      rename_i m' _ _
      cases m' <;> simp [toggle_mode]

/-- Witness for C7 at the concrete reachable state `Simulation`
(one toggle from the initial state). -/
theorem mode_machine_never_moving_witness :
    ReachableMode Mode.Simulation ∧
      Mode.Simulation ≠ Mode.Editor EditorMode.Moving :=
  ⟨ReachableMode.toggle ReachableMode.init,
    mode_machine_never_moving.2.2.2 Mode.Simulation
      (ReachableMode.toggle ReachableMode.init)⟩

/-- C8 counterexample: starting with `PlaceAlive` already latched, two
consecutive primary-button presses end at `PlaceAlive`, not `None`
(press 1 clears, press 2 re-latches), refuting the double-press clause
as universally quantified over every pending-action value. -/
theorem double_press_counterexample :
    ((({ CustomInput.new with action := InputAction.PlaceAlive
        }.update Event.LeftPressed).update Event.LeftPressed).action =
        InputAction.PlaceAlive) ∧
      InputAction.PlaceAlive ≠ InputAction.None := by
  exact ⟨rfl, by decide⟩

/-- C8 amended: a primary press maps `PlaceAlive` to `None` and
everything else to `PlaceAlive`, a secondary press analogously toggles
`PlaceDead`; the two latches mutually displace; and two consecutive
primary presses yield `None` from every starting action other than
`PlaceAlive` (from `PlaceAlive` itself they yield `PlaceAlive`). -/
theorem action_toggle_latch :
    (∀ i : CustomInput,
      (i.update Event.LeftPressed).action =
        if i.action = InputAction.PlaceAlive then InputAction.None
        else InputAction.PlaceAlive) ∧
    (∀ i : CustomInput,
      (i.update Event.RightPressed).action =
        if i.action = InputAction.PlaceDead then InputAction.None
        else InputAction.PlaceDead) ∧
    (∀ i : CustomInput, i.action = InputAction.PlaceDead →
      (i.update Event.LeftPressed).action = InputAction.PlaceAlive) ∧
    (∀ i : CustomInput, i.action = InputAction.PlaceAlive →
      (i.update Event.RightPressed).action = InputAction.PlaceDead) ∧
    (∀ i : CustomInput, i.action ≠ InputAction.PlaceAlive →
      ((i.update Event.LeftPressed).update Event.LeftPressed).action =
        InputAction.None) := by
  refine ⟨?_, ?_, ?_, ?_, ?_⟩ <;> intro i <;>
    cases h : i.action <;> simp [CustomInput.update, h]

/-- Witness for C8 amended at the freshly constructed input (action
`None`): two primary presses land at `None`. -/
theorem action_toggle_latch_witness :
    CustomInput.new.action ≠ InputAction.PlaceAlive ∧
      ((CustomInput.new.update Event.LeftPressed).update
          Event.LeftPressed).action = InputAction.None :=
  ⟨by decide, action_toggle_latch.2.2.2.2 CustomInput.new (by decide)⟩

/-- C9: handling a latched `Pause` action toggles the mode exactly
once and resets the action to `None`; any number of further `interact`
runs with no new input leave the mode at the once-toggled value. -/
theorem pause_one_shot :
    ∀ (c : Conway) (i : CustomInput), i.action = InputAction.Pause →
      ∀ n : Nat,
        (interactIter (n + 1) c i).map (fun s => (s.1.mode, s.2.action)) =
          some (toggle_mode c.mode, InputAction.None) := by
  intro c i h n
  obtain ⟨i', hi, hia⟩ := interact_action_pause c i h
  rw [show interactIter (n + 1) c i =
    (match interact c i with
      | some s => interactIter n s.1 s.2
      | none => none) from rfl, hi]
  exact interactIter_none n c.toggle i' hia

/-- Witness for C9: from the fresh engine with a latched Pause, two
ticks later the mode sits at `Simulation` and the action at `None`. -/
theorem pause_one_shot_witness :
    (interactIter 2 Conway.new
        { CustomInput.new with action := InputAction.Pause }).map
      (fun s => (s.1.mode, s.2.action)) =
      some (Mode.Simulation, InputAction.None) :=
  pause_one_shot Conway.new
    { CustomInput.new with action := InputAction.Pause } rfl 1

/-- C2 counterexample: from the initial states, one cursor movement in
Editor mode followed by a Pause key press and a single interaction
tick leaves the engine in Simulation mode with the queued point still
in the queue — the tick did not empty the cursor-point queue. -/
theorem queue_not_drained_counterexample :
    (interact Conway.new
        ((CustomInput.new.update (Event.CursorMoved 5 5)).update
          Event.PauseKeyPressed)).map
      (fun s => (s.1.mode, s.2.mouse_points)) =
      some (Mode.Simulation, [⟨5, 5⟩]) ∧
    ([(⟨5, 5⟩ : Point)] : List Point) ≠ [] := by
  constructor
  · rfl
  · simp

/-- C2 amended: after an interaction tick, the queue is empty whenever
the resulting mode is an Editor mode, but a tick ending in Simulation
mode leaves the queue exactly as it was (the code ignores rather than
discards it there). -/
theorem queue_drain_amended :
    ∀ (c : Conway) (i : CustomInput) (s : Conway × CustomInput),
      interact c i = some s →
      (s.1.mode = Mode.Simulation → s.2.mouse_points = i.mouse_points) ∧
      ∀ e : EditorMode, s.1.mode = Mode.Editor e →
        s.2.mouse_points = [] := by
  intro c i s h
  by_cases hp : i.action = InputAction.Pause
  · by_cases hm : (c.toggle).mode = Mode.Simulation
    · rw [show interact c i = some (c.toggle,
          { i with action := InputAction.None, mode := c.toggle.mode })
          from by simp [interact, hp, hm]] at h
      rcases Option.some.inj h with rfl
      exact ⟨fun _ => rfl, fun e he => absurd (hm.symm.trans he) (by simp)⟩
    · rw [show interact c i = some (c.toggle,
          ⟨c.toggle.mode, [], InputAction.None⟩)
          from by simp [interact, hp, hm, drainRev_none]] at h
      rcases Option.some.inj h with rfl
      exact ⟨fun hs => absurd hs hm, fun e he => rfl⟩
  · by_cases hm : c.mode = Mode.Simulation
    · rw [show interact c i = some (c, i)
          from by simp [interact, hp, hm]] at h
      rcases Option.some.inj h with rfl
      exact ⟨fun _ => rfl, fun e he => absurd (hm.symm.trans he) (by simp)⟩
    · rw [show interact c i =
          (drainRev i.action c i.mouse_points.reverse).map
            (fun c' => (c', { i with mouse_points := [] }))
          from by simp [interact, hp, hm]] at h
      rcases Option.map_eq_some'.mp h with ⟨c', hd, rfl⟩
      have hmode : c'.mode = c.mode := drainRev_mode hp _ _ _ hd
      exact ⟨fun hs => absurd (hmode.symm.trans hs) hm, fun e he => rfl⟩

/-- Witness for C2 amended at the fresh states: the tick succeeds, ends
in Editor mode, and the queue is empty. -/
theorem queue_drain_amended_witness :
    CustomInput.new.mouse_points = [] :=
  (queue_drain_amended Conway.new CustomInput.new
      (Conway.new, CustomInput.new) rfl).2
    EditorMode.Drawing rfl

/-- C1 (code bug): the cursor point `(1020, 5)` lies inside the
`[0, 1024) × [0, 1024)` window, yet in Editor mode with an active
`PlaceAlive` action the tick translates it to cell column
`1020 / 10 = 102 = CELL_COUNT_X`, which is outside `[0, 102)`, and
writes `current_board[0][102]` with no clamp or discard — an
out-of-bounds indexing panic, modelled here by `interact` returning
`none`. -/
theorem editor_write_out_of_bounds :
    (0 : ℚ) ≤ 1020 ∧ (1020 : ℚ) < (WINDOW_SIZE_X : ℚ) ∧
    (0 : ℚ) ≤ 5 ∧ (5 : ℚ) < (WINDOW_SIZE_Y : ℚ) ∧
    toCellCoord 1020 = 102 ∧ CELL_COUNT_X = 102 ∧
    interact Conway.new
      { mode := Mode.Editor EditorMode.Drawing
        mouse_points := [⟨1020, 5⟩]
        action := InputAction.PlaceAlive } = none := by
  refine ⟨by norm_num, by norm_num [WINDOW_SIZE_X], by norm_num,
    by norm_num [WINDOW_SIZE_Y, WINDOW_SIZE_X], toCellCoord_1020, rfl, ?_⟩
  simp [interact, drainRev, applyPoint, setCell?, toCellCoord_1020,
    toCellCoord_5, Conway.new, cell_count_x_eq, cell_count_y_eq,
    List.getElem?_replicate]

/-- C3: one generation advance sets each in-bounds coordinate of the
successor board purely as a function of the pre-advance current board
(the right-hand sides below mention only `s.current_board`): an Alive
cell stays Alive iff its snapshot neighbor count is 2 or 3, and a Dead
cell becomes Alive iff the count is 3. -/
theorem generation_rule :
    ∀ (s : Conway) (x y : Nat),
      y < s.current_board.length →
      x < (s.current_board.getD y []).length →
      (getCell (update_board_state s).current_board y x =
        lifeRule (getCell s.current_board y x)
          (count_neighbors s.current_board x y)) ∧
      (getCell s.current_board y x = Cell.Alive →
        (getCell (update_board_state s).current_board y x = Cell.Alive ↔
          (count_neighbors s.current_board x y = 2 ∨
            count_neighbors s.current_board x y = 3))) ∧
      (getCell s.current_board y x = Cell.Dead →
        (getCell (update_board_state s).current_board y x = Cell.Alive ↔
          count_neighbors s.current_board x y = 3)) := by
  intro s x y hy hx
  rw [show (update_board_state s).current_board =
    nextBoard s.current_board from rfl]
  rw [getCell_nextBoard s.current_board x y hy hx]
  refine ⟨rfl, ?_, ?_⟩
  · intro ha
    rw [ha]
    simp only [lifeRule]
    split_ifs with h1 h2 h3
    · simp
      omega
    · simp [h2]
    · simp
      omega
    · omega
  · intro hd
    rw [hd]
    simp only [lifeRule]
    split_ifs with h1
    · simp [h1]
    · simp [h1]

/-- Witness for C3 at the fresh engine and coordinate `(0, 0)` (a Dead
cell with neighbor count 0 stays Dead). -/
theorem generation_rule_witness :
    getCell (update_board_state Conway.new).current_board 0 0 =
      lifeRule (getCell Conway.new.current_board 0 0)
        (count_neighbors Conway.new.current_board 0 0) :=
  (generation_rule Conway.new 0 0 (by decide) (by decide)).1

/-- C4: for every in-bounds coordinate, `count_neighbors` returns
exactly the number of Alive cells at the in-bounds positions among the
8 grid-adjacent offsets (out-of-bounds offsets contribute zero and
never wrap, by the signed bounds check of the spec-side count), and at
the corner `(0, 0)` the count ranges over at most 3 positions. -/
theorem count_neighbors_spec :
    ∀ (b : Board) (x y : Nat), x < CELL_COUNT_X → y < CELL_COUNT_Y →
      count_neighbors b x y = specNeighborCount b x y ∧
      count_neighbors b 0 0 ≤ 3 := by
  intro b x y hx hy
  have hker : ∀ d ∈ KERNEL,
      (-1 ≤ d.1 ∧ d.1 ≤ 1) ∧ (-1 ≤ d.2 ∧ d.2 ≤ 1) := by decide
  have heq : ∀ (u v : Nat), u < CELL_COUNT_X → v < CELL_COUNT_Y →
      count_neighbors b u v = specNeighborCount b u v := by
    intro u v hu hv
    rw [count_neighbors, specNeighborCount,
      countFold_eq b u v hu hv KERNEL hker 0, Nat.zero_add]
  refine ⟨heq x y hx hy, ?_⟩
  rw [heq 0 0 (by decide) (by decide), specNeighborCount,
    ← List.countP_eq_length_filter]
  calc KERNEL.countP (specNeighborPred b 0 0)
      ≤ KERNEL.countP (fun d => decide (0 ≤ d.1) && decide (0 ≤ d.2)) := by
        apply List.countP_mono_left
        intro d _ hp
        obtain ⟨hbx, hby, _⟩ := specNeighborPred_bounds hp
        simp only [Bool.and_eq_true, decide_eq_true_eq]
        constructor
        · omega
        · omega
    _ = 3 := by decide

/-- Witness for C4 on a concrete 2x2 board at the corner: the count
equals the spec count (2 Alive in-bounds neighbors) and is at most 3. -/
theorem count_neighbors_spec_witness :
    count_neighbors [[Cell.Alive, Cell.Alive], [Cell.Alive, Cell.Dead]]
        0 0 =
      specNeighborCount
        [[Cell.Alive, Cell.Alive], [Cell.Alive, Cell.Dead]] 0 0 ∧
    count_neighbors [[Cell.Alive, Cell.Alive], [Cell.Alive, Cell.Dead]]
        0 0 ≤ 3 :=
  count_neighbors_spec
    [[Cell.Alive, Cell.Alive], [Cell.Alive, Cell.Dead]] 0 0
    (by decide) (by decide)

/-- C5: in Simulation mode, an interaction tick with a latched
`PlaceAlive` or `PlaceDead` action and any queue of cursor points
leaves the engine state (in particular every cell of the current
board) fully unchanged; in Editor mode the same actions on in-bounds
points do set every targeted cell to the placed state — `PlaceAlive`
sets them Alive, `PlaceDead` sets them Dead — and empty the queue. -/
theorem mode_gating :
    (∀ (c : Conway) (i : CustomInput),
      c.mode = Mode.Simulation →
      (i.action = InputAction.PlaceAlive ∨
        i.action = InputAction.PlaceDead) →
      interact c i = some (c, i)) ∧
    (∀ (c : Conway) (i : CustomInput) (e : EditorMode),
      c.mode = Mode.Editor e → i.action = InputAction.PlaceAlive →
      (∀ p ∈ i.mouse_points, ptInBounds c.current_board p) →
      ∃ c', interact c i = some (c', { i with mouse_points := [] }) ∧
        ∀ p ∈ i.mouse_points,
          getCell c'.current_board (toCellCoord p.y) (toCellCoord p.x) =
            Cell.Alive) ∧
    (∀ (c : Conway) (i : CustomInput) (e : EditorMode),
      c.mode = Mode.Editor e → i.action = InputAction.PlaceDead →
      (∀ p ∈ i.mouse_points, ptInBounds c.current_board p) →
      ∃ c', interact c i = some (c', { i with mouse_points := [] }) ∧
        ∀ p ∈ i.mouse_points,
          getCell c'.current_board (toCellCoord p.y) (toCellCoord p.x) =
            Cell.Dead) := by
  refine ⟨?_, ?_, ?_⟩
  · intro c i hm ha
    rcases ha with h | h <;> simp [interact, h, hm]
  · intro c i e hm ha hb
    have hbr : ∀ p ∈ i.mouse_points.reverse,
        ptInBounds c.current_board p :=
      fun p hp => hb p (List.mem_reverse.mp hp)
    obtain ⟨c', hd, _, _, _, hpts⟩ :=
      drainRev_place (Or.inl ⟨rfl, rfl⟩) i.mouse_points.reverse c hbr
    refine ⟨c', ?_, fun p hp => hpts p (List.mem_reverse.mpr hp)⟩
    simp [interact, ha, hm, hd]
  · intro c i e hm ha hb
    have hbr : ∀ p ∈ i.mouse_points.reverse,
        ptInBounds c.current_board p :=
      fun p hp => hb p (List.mem_reverse.mp hp)
    obtain ⟨c', hd, _, _, _, hpts⟩ :=
      drainRev_place (Or.inr ⟨rfl, rfl⟩) i.mouse_points.reverse c hbr
    refine ⟨c', ?_, fun p hp => hpts p (List.mem_reverse.mpr hp)⟩
    simp [interact, ha, hm, hd]

/-- Witness for C5: in Simulation mode a concrete `PlaceAlive` tick
returns the states unchanged; in Editor mode, on the in-window point
`(5, 5)`, a `PlaceAlive` tick succeeds, empties the queue and leaves
the targeted cell Alive, and a `PlaceDead` tick likewise leaves it
Dead. -/
theorem mode_gating_witness :
    (interact { Conway.new with mode := Mode.Simulation }
        { CustomInput.new with action := InputAction.PlaceAlive } =
      some ({ Conway.new with mode := Mode.Simulation },
        { CustomInput.new with action := InputAction.PlaceAlive })) ∧
    (∃ c', interact Conway.new
        (⟨Mode.Editor EditorMode.Drawing, [⟨5, 5⟩],
          InputAction.PlaceAlive⟩ : CustomInput) =
        some (c', ⟨Mode.Editor EditorMode.Drawing, [],
          InputAction.PlaceAlive⟩) ∧
      ∀ p ∈ ([⟨5, 5⟩] : List Point),
        getCell c'.current_board (toCellCoord p.y) (toCellCoord p.x) =
          Cell.Alive) ∧
    (∃ c', interact Conway.new
        (⟨Mode.Editor EditorMode.Drawing, [⟨5, 5⟩],
          InputAction.PlaceDead⟩ : CustomInput) =
        some (c', ⟨Mode.Editor EditorMode.Drawing, [],
          InputAction.PlaceDead⟩) ∧
      ∀ p ∈ ([⟨5, 5⟩] : List Point),
        getCell c'.current_board (toCellCoord p.y) (toCellCoord p.x) =
          Cell.Dead) :=
  ⟨mode_gating.1 _ _ rfl (Or.inl rfl),
    mode_gating.2.1 Conway.new
      ⟨Mode.Editor EditorMode.Drawing, [⟨5, 5⟩], InputAction.PlaceAlive⟩
      EditorMode.Drawing rfl rfl
      (by
        intro p hp
        rw [List.mem_singleton.mp hp]
        refine ⟨?_, ?_⟩
        · rw [show Point.y ⟨5, 5⟩ = 5 from rfl, toCellCoord_5]
          decide
        · rw [show Point.y ⟨5, 5⟩ = 5 from rfl,
            show Point.x ⟨5, 5⟩ = 5 from rfl, toCellCoord_5]
          decide),
    mode_gating.2.2 Conway.new
      ⟨Mode.Editor EditorMode.Drawing, [⟨5, 5⟩], InputAction.PlaceDead⟩
      EditorMode.Drawing rfl rfl
      (by
        intro p hp
        rw [List.mem_singleton.mp hp]
        refine ⟨?_, ?_⟩
        · rw [show Point.y ⟨5, 5⟩ = 5 from rfl, toCellCoord_5]
          decide
        · rw [show Point.y ⟨5, 5⟩ = 5 from rfl,
            show Point.x ⟨5, 5⟩ = 5 from rfl, toCellCoord_5]
          decide)⟩

/-- C10: a freshly constructed engine has `CELL_COUNT_Y` rows of
`CELL_COUNT_X` all-Dead cells in both boards, with the constants equal
to `window size / cell size = 102`. -/
theorem conway_new_boards :
    Conway.new.current_board.length = CELL_COUNT_Y ∧
    Conway.new.new_board.length = CELL_COUNT_Y ∧
    (∀ row ∈ Conway.new.current_board,
      row.length = CELL_COUNT_X ∧ ∀ c ∈ row, c = Cell.Dead) ∧
    (∀ row ∈ Conway.new.new_board,
      row.length = CELL_COUNT_X ∧ ∀ c ∈ row, c = Cell.Dead) ∧
    CELL_COUNT_X = WINDOW_SIZE_X / CELL_SIZE ∧
    CELL_COUNT_Y = WINDOW_SIZE_Y / CELL_SIZE ∧
    CELL_COUNT_X = 102 ∧ CELL_COUNT_Y = 102 := by
  refine ⟨rfl, rfl, ?_, ?_, rfl, rfl, rfl, rfl⟩ <;>
    · intro row hrow
      rw [List.eq_of_mem_replicate hrow]
      exact ⟨List.length_replicate _ _,
        fun c hc => List.eq_of_mem_replicate hc⟩

/-- Witness for C10 at the concrete first row of the fresh current
board. -/
theorem conway_new_boards_witness :
    (List.replicate CELL_COUNT_X Cell.Dead).length = CELL_COUNT_X :=
  (conway_new_boards.2.2.1 (List.replicate CELL_COUNT_X Cell.Dead)
    (List.mem_replicate.mpr ⟨by decide, rfl⟩)).1

/-- C6: the scratch board is entirely Dead immediately after
construction and immediately after every generation advance (swap then
mandatory clear). -/
theorem scratch_board_all_dead :
    (∀ row ∈ Conway.new.new_board, ∀ c ∈ row, c = Cell.Dead) ∧
    (∀ s : Conway, ∀ row ∈ (update_board_state s).new_board,
      ∀ c ∈ row, c = Cell.Dead) := by
  constructor
  · intro row hrow c hc
    rw [List.eq_of_mem_replicate hrow] at hc
    exact List.eq_of_mem_replicate hc
  · intro s row hrow c hc
    rcases List.mem_map.mp hrow with ⟨r, _, hr⟩
    rw [← hr] at hc
    exact List.eq_of_mem_replicate hc

/-- Witness for C6: the scratch board right after advancing the fresh
engine one generation has the all-Dead row as a member, and its cells
are Dead. -/
theorem scratch_board_all_dead_witness :
    Cell.Dead = Cell.Dead :=
  scratch_board_all_dead.2 Conway.new
    (List.replicate CELL_COUNT_X Cell.Dead)
    (List.mem_map.mpr ⟨List.replicate CELL_COUNT_X Cell.Dead,
      List.mem_replicate.mpr ⟨by decide, rfl⟩, rfl⟩)
    Cell.Dead (List.mem_replicate.mpr ⟨by decide, rfl⟩)

end Vitae
